import Mathlib

/-!
Shallow embedding of the librum binary codec core: the write cursor
(`OStream`), the read cursor (`DStream`), the leaf and composite
encoders from `librum/src/encode/mod.rs`, the item error shape from
`librum/src/error/item_encode_error.rs`, the generated enum decoder
from `librum-macros/src/impls/decode_enum.rs`, and the discriminant
representation from `oct-macros/src/repr/mod.rs`.  Machine integers
are modelled as `Nat`/`Int` with explicit reductions modulo `2 ^ w`
where the source relies on fixed-width arithmetic; fallible source
functions return `Except`.
-/

namespace Librum

/-- The write cursor.  The source holds a mutable borrow of a byte
buffer and a write position; since every committed byte is append-only
and the claims under study concern the emitted bytes, the cursor is
modelled as the list of bytes committed so far. -/
abbrev OStream : Type := List Nat

deriving instance DecidableEq for Except

/-- `OStream::write`: commits the given raw bytes to the stream. -/
def OStream.write (s : OStream) (bs : List Nat) : OStream := s ++ bs

/-- `Infallible`: the uninhabited error type of encoders that cannot
fail. -/
inductive Infallible : Type

instance : DecidableEq Infallible := fun a _ => nomatch a

/-- `<u8 as Encode>::encode` (from `impl_numeric!(u8)`): writes the
value's single big-endian byte. -/
def u8Encode (v : Nat) (s : OStream) : OStream := s.write [v % 256]

/-- `<u16 as Encode>::encode` (from `impl_numeric!(u16)`): writes the
value's two big-endian bytes. -/
def u16Encode (v : Nat) (s : OStream) : OStream :=
  s.write [v / 256 % 256, v % 256]

/-- `<bool as Encode>::encode`: converts to `u8` (`false ↦ 0`,
`true ↦ 1`) and encodes that byte. -/
def boolEncode (b : Bool) (s : OStream) : OStream :=
  u8Encode (if b then 1 else 0) s

/-- `UsizeEncodeError`: a `usize` value could not be narrowed to
`u16`; carries the offending value. -/
structure UsizeEncodeError where
  value : Nat
  deriving DecidableEq

/-- `IsizeEncodeError`: an `isize` value could not be narrowed to
`i16`; carries the offending value. -/
structure IsizeEncodeError where
  value : Int
  deriving DecidableEq

/-- `<usize as Encode>::encode`: casts the value to `u16`
(`u16::try_from` succeeds exactly on values of at most `65535`) and
encodes the result; a failed narrowing returns `UsizeEncodeError`
carrying the value. -/
def usizeEncode (v : Nat) (s : OStream) : Except UsizeEncodeError OStream :=
  if v ≤ 65535 then .ok (u16Encode v s) else .error ⟨v⟩

/-- `i16::to_be_bytes`: the two big-endian bytes of the value's
sixteen-bit two's-complement form. -/
def i16ToBeBytes (v : Int) : List Nat :=
  [(v % 65536).toNat / 256, (v % 65536).toNat % 256]

/-- `<i16 as Encode>::encode` (from `impl_numeric!(i16)`): writes the
value's two big-endian bytes. -/
def i16Encode (v : Int) (s : OStream) : OStream :=
  s.write (i16ToBeBytes v)

/-- `<isize as Encode>::encode`: casts the value to `i16`
(`i16::try_from` succeeds exactly on `[-32768, 32767]`) and encodes
the result; a failed narrowing returns `IsizeEncodeError` carrying the
value. -/
def isizeEncode (v : Int) (s : OStream) : Except IsizeEncodeError OStream :=
  if -32768 ≤ v ∧ v ≤ 32767 then .ok (i16Encode v s) else .error ⟨v⟩

/-- C4: for every `usize` value `v`, `encode` succeeds exactly when
`v` fits in sixteen bits, writing `v` as its fixed two-byte big-endian
form; for `v` above `65535` it fails with a narrowing-overflow error
carrying `v`, and writes nothing. -/
theorem c4_usize_encode (v : Nat) (s : OStream) :
    (v ≤ 65535 → usizeEncode v s = .ok (s ++ [v / 256 % 256, v % 256])) ∧
    (65535 < v → usizeEncode v s = .error ⟨v⟩) := by
  constructor
  · intro h
    simp [usizeEncode, u16Encode, OStream.write, h]
  · intro h
    rw [usizeEncode, if_neg (by omega)]

theorem c4_usize_encode_witness :
    usizeEncode 300 [] = Except.ok [1, 44] ∧
    usizeEncode 70000 [] = Except.error ⟨70000⟩ :=
  ⟨(c4_usize_encode 300 []).1 (by decide), (c4_usize_encode 70000 []).2 (by decide)⟩

/-- C9: for every `isize` value `v`, `encode` succeeds exactly when
`v` lies in `[-32768, 32767]`, writing `v` as its two-byte signed
big-endian (two's-complement) form; outside that range it fails with a
narrowing-overflow error carrying `v`.  The signed range differs from
the unsigned `usize` range: `40000` encodes as `usize` but not as
`isize`. -/
theorem c9_isize_encode (v : Int) (s : OStream) :
    (-32768 ≤ v ∧ v ≤ 32767 → isizeEncode v s = .ok (s ++ i16ToBeBytes v)) ∧
    (v < -32768 ∨ 32767 < v → isizeEncode v s = .error ⟨v⟩) ∧
    (isizeEncode 40000 [] = .error ⟨40000⟩ ∧ usizeEncode 40000 [] = .ok [156, 64]) := by
  refine ⟨?_, ?_, by decide, by decide⟩
  · intro h
    simp [isizeEncode, i16Encode, OStream.write, h.1, h.2]
  · intro h
    rw [isizeEncode, if_neg (by omega)]

theorem c9_isize_encode_witness :
    isizeEncode 300 [] = Except.ok [1, 44] ∧
    isizeEncode (-1) [] = Except.ok [255, 255] ∧
    isizeEncode 40000 [] = Except.error ⟨40000⟩ :=
  ⟨by simpa using (c9_isize_encode 300 []).1 (by decide),
   by simpa using (c9_isize_encode (-1) []).1 (by decide),
   (c9_isize_encode 40000 []).2.1 (by decide)⟩

/-- `Error` (from `src/deserialise/d_stream`'s crate): the variant
used by the read cursor.  `EndOfDStream` reports the available byte
count (field `len`) and the requested byte count (field `ok_len`). -/
inductive Error : Type where
  | EndOfDStream (len : Nat) (ok_len : Nat)
  deriving DecidableEq

/-- `DStream`: the read cursor.  Borrows a byte slice (`data`) and
keeps a remaining-length counter (`len`). -/
structure DStream where
  data : List Nat
  len : Nat
  deriving DecidableEq

/-- `DStream::new`: constructs a stream over a whole buffer. -/
def DStream.new (buf : List Nat) : DStream :=
  { data := buf, len := buf.length }

/-- `DStream::take`: if fewer than `n` bytes remain, returns
`EndOfDStream` and leaves the cursor untouched; otherwise consumes and
returns the next `n` bytes, counted forward from position
`data.length - len`.  The source mutates `self` and returns the
sub-slice; this is modelled by returning the result paired with the
cursor's new state. -/
def DStream.take (s : DStream) (n : Nat) : Except Error (List Nat) × DStream :=
  if s.len < n then
    (.error (.EndOfDStream s.len n), s)
  else
    (.ok ((s.data.drop (s.data.length - s.len)).take n),
      { data := s.data, len := s.len - n })

/-- C3: for every read cursor with `r` remaining bytes and every
requested length `n` with `r < n`, `take n` returns the recoverable
`EndOfDStream` error reporting the available count `r` (field `len`)
and the requested count `n` (field `ok_len`), and the cursor is
returned unchanged. -/
theorem c3_take_end_of_stream (s : DStream) (n : Nat) (h : s.len < n) :
    s.take n = (.error (.EndOfDStream s.len n), s) := by
  simp [DStream.take, h]

theorem c3_take_end_of_stream_witness :
    (DStream.new []).take 2 =
      (Except.error (Error.EndOfDStream 0 2), DStream.new []) :=
  c3_take_end_of_stream (DStream.new []) 2 (by decide)

/-- C6: the invariant `len ≤ data.length` holds after `DStream::new`
and is preserved by every `take`; every successful `take n` consumes
exactly `n` bytes (`len` drops by exactly `n`, with `n ≤ len`),
returns the sub-slice of exactly `n` bytes starting at the current
position `data.length - len`, leaves the underlying buffer alone, and
advances the position by exactly `n`. -/
theorem c6_dstream_invariant (buf : List Nat) (s : DStream) (m n : Nat)
    (bs : List Nat) (s' : DStream)
    (hs : s.len ≤ s.data.length) (h : s.take n = (Except.ok bs, s')) :
    (DStream.new buf).len ≤ (DStream.new buf).data.length ∧
    ((s.take m).2).len ≤ ((s.take m).2).data.length ∧
    n ≤ s.len ∧
    s'.len = s.len - n ∧
    bs.length = n ∧
    bs = (s.data.drop (s.data.length - s.len)).take n ∧
    s'.data = s.data ∧
    s'.data.length - s'.len = (s.data.length - s.len) + n := by
  have hn : ¬ s.len < n := by
    intro hlt
    simp [DStream.take, hlt] at h
  rw [DStream.take, if_neg hn] at h
  have hbs := congrArg Prod.fst h
  have hs' := congrArg Prod.snd h
  simp only [Except.ok.injEq] at hbs
  simp only at hs'
  refine ⟨by simp [DStream.new], ?_, by omega, ?_, ?_, ?_, ?_, ?_⟩
  · by_cases hm : s.len < m
    · simp [DStream.take, hm, hs]
    · simp only [DStream.take, if_neg hm]
      simpa using Nat.le_trans (Nat.sub_le s.len m) hs
  · rw [← hs']
  · rw [← hbs]
    simp only [List.length_take, List.length_drop]
    omega
  · exact hbs.symm
  · rw [← hs']
  · rw [← hs']
    simp only
    omega

theorem c6_dstream_invariant_witness :
    (DStream.new []).len ≤ (DStream.new []).data.length ∧
    (((DStream.new [10, 20, 30]).take 5).2).len ≤
      (((DStream.new [10, 20, 30]).take 5).2).data.length ∧
    2 ≤ (DStream.new [10, 20, 30]).len ∧
    (DStream.mk [10, 20, 30] 1).len = (DStream.new [10, 20, 30]).len - 2 ∧
    ([10, 20] : List Nat).length = 2 ∧
    ([10, 20] : List Nat) =
      ((DStream.new [10, 20, 30]).data.drop
        ((DStream.new [10, 20, 30]).data.length - (DStream.new [10, 20, 30]).len)).take 2 ∧
    (DStream.mk [10, 20, 30] 1).data = (DStream.new [10, 20, 30]).data ∧
    (DStream.mk [10, 20, 30] 1).data.length - (DStream.mk [10, 20, 30] 1).len =
      ((DStream.new [10, 20, 30]).data.length - (DStream.new [10, 20, 30]).len) + 2 :=
  c6_dstream_invariant [] (DStream.new [10, 20, 30]) 5 2 [10, 20]
    (DStream.mk [10, 20, 30] 1) (by decide) (by decide)

/-- `ItemEncodeError`: a collection's item could not be encoded;
carries the item's index and the item encoder's error. -/
structure ItemEncodeError (I E : Type) where
  index : I
  error : E
  deriving DecidableEq

/-- The `Display` implementation of `ItemEncodeError`, abstracted over
the renderings of the index and of the nested error:
`write!(f, "could not encode item at \x60{}\x60: {}", index, error)`. -/
def ItemEncodeError.display {I E : Type} (x : ItemEncodeError I E)
    (fi : I → String) (fe : E → String) : String :=
  "could not encode item at \x60" ++ fi x.index ++ "\x60: " ++ fe x.error

/-- The `Error::source` implementation of `ItemEncodeError`: yields
the immediate nested error. -/
def ItemEncodeError.source {I E : Type} (x : ItemEncodeError I E) : Option E :=
  some x.error

/-- `CollectionEncodeError`: either the collection's length could not
be encoded, or one of its items could not. -/
inductive CollectionEncodeError (L I : Type) : Type where
  | Length (error : L)
  | Item (error : I)
  deriving DecidableEq

/-- The per-item loop shared by the `[T; N]` and `[T]` encode
implementations: encodes each element in order, wrapping the first
failure with its zero-based index. -/
def encodeItems {α E : Type} (f : α → OStream → Except E OStream) :
    Nat → List α → OStream →
      Except (CollectionEncodeError UsizeEncodeError (ItemEncodeError Nat E)) OStream
  | _, [], s => .ok s
  | i, x :: xs, s =>
    match f x s with
    | .ok s' => encodeItems f (i + 1) xs s'
    | .error e => .error (.Item ⟨i, e⟩)

/-- `<[T] as Encode>::encode`: encodes the element count as a `usize`
length specifier first, then each element sequentially.  `Vec` and
`LinkedList` delegate to the same scheme. -/
def sliceEncode {α E : Type} (f : α → OStream → Except E OStream)
    (xs : List α) (s : OStream) :
    Except (CollectionEncodeError UsizeEncodeError (ItemEncodeError Nat E)) OStream :=
  match usizeEncode xs.length s with
  | .error e => .error (.Length e)
  | .ok s' => encodeItems f 0 xs s'

/-- `<HashSet<K, S> as Encode>::encode`: encodes each key sequentially
in iteration order.  The iteration order itself is hasher-dependent;
the modelled list is the keys in that order.  No length specifier is
written. -/
def hashSetEncode {α E : Type} (f : α → OStream → Except E OStream) :
    List α → OStream → Except E OStream
  | [], s => .ok s
  | x :: xs, s =>
    match f x s with
    | .ok s' => hashSetEncode f xs s'
    | .error e => .error e

/-- `<HashMap<K, V, S> as Encode>::encode`: encodes each key, then its
value, sequentially in iteration order.  No length specifier is
written. -/
def hashMapEncode {κ ν E : Type} (fk : κ → OStream → Except E OStream)
    (fv : ν → OStream → Except E OStream) :
    List (κ × ν) → OStream → Except E OStream
  | [], s => .ok s
  | (k, v) :: xs, s =>
    match fk k s with
    | .error e => .error e
    | .ok s' =>
      match fv v s' with
      | .error e => .error e
      | .ok s'' => hashMapEncode fk fv xs s''

/-- `<u8 as Encode>::encode` in the shape element encoders take: the
error type is `Infallible`. -/
def u8EncodeE (v : Nat) (s : OStream) : Except Infallible OStream :=
  .ok (u8Encode v s)

theorem encodeItems_pure {α E : Type} (f : α → OStream → Except E OStream)
    (g : α → List Nat) (hf : ∀ x s, f x s = Except.ok (s ++ g x)) :
    ∀ (xs : List α) (i : Nat) (s : OStream),
      encodeItems f i xs s = .ok (s ++ (xs.map g).flatten) := by
  intro xs
  induction xs with
  | nil => intro i s; simp [encodeItems]
  | cons x xs ih =>
    intro i s
    simp [encodeItems, hf, ih, List.append_assoc]

theorem hashSetEncode_pure {α E : Type} (f : α → OStream → Except E OStream)
    (g : α → List Nat) (hf : ∀ x s, f x s = Except.ok (s ++ g x)) :
    ∀ (xs : List α) (s : OStream), hashSetEncode f xs s = .ok (s ++ (xs.map g).flatten) := by
  intro xs
  induction xs with
  | nil => intro s; simp [hashSetEncode]
  | cons x xs ih =>
    intro s
    simp [hashSetEncode, hf, ih, List.append_assoc]

theorem hashMapEncode_pure {κ ν E : Type} (fk : κ → OStream → Except E OStream)
    (fv : ν → OStream → Except E OStream) (gk : κ → List Nat) (gv : ν → List Nat)
    (hfk : ∀ k s, fk k s = Except.ok (s ++ gk k))
    (hfv : ∀ v s, fv v s = Except.ok (s ++ gv v)) :
    ∀ (xs : List (κ × ν)) (s : OStream),
      hashMapEncode fk fv xs s =
        .ok (s ++ (xs.map (fun e => gk e.1 ++ gv e.2)).flatten) := by
  intro xs
  induction xs with
  | nil => intro s; simp [hashMapEncode]
  | cons x xs ih =>
    intro s
    obtain ⟨k, v⟩ := x
    simp [hashMapEncode, hfk, hfv, ih, List.append_assoc]

/-- C1 counterexample: the hash-set encode of the one-element `u8` set
containing `5` emits the single byte `5` and not the three bytes
`[0, 1, 5]` that a sixteen-bit count prefix of `1` followed by the
element encoding would produce. -/
theorem c1_no_prefix_counterexample :
    hashSetEncode u8EncodeE [5] [] = Except.ok [5] ∧
    hashSetEncode u8EncodeE [5] [] ≠ Except.ok ([0, 1] ++ [5]) := by
  constructor
  · rfl
  · intro h
    rw [show hashSetEncode u8EncodeE [5] [] = Except.ok [5] from rfl] at h
    simp at h

/-- C1 (amended): for every growable sequence (slice, vector, linked
list) whose element count fits the sixteen-bit length specifier,
`encode` first emits the two-byte big-endian count prefix equal to the
element count and then the sequential element encodings in order; for
hash sets and hash maps, `encode` emits only the sequential element
(or key-then-value) encodings in iteration order, with no length
prefix. -/
theorem c1_growable_encode {α κ ν E E' : Type}
    (f : α → OStream → Except E OStream) (g : α → List Nat)
    (fk : κ → OStream → Except E' OStream) (gk : κ → List Nat)
    (fv : ν → OStream → Except E' OStream) (gv : ν → List Nat)
    (hf : ∀ x s, f x s = Except.ok (s ++ g x))
    (hfk : ∀ k s, fk k s = Except.ok (s ++ gk k))
    (hfv : ∀ v s, fv v s = Except.ok (s ++ gv v))
    (xs : List α) (es : List (κ × ν)) (s : OStream)
    (h : xs.length ≤ 65535) :
    sliceEncode f xs s =
      .ok ((s ++ [xs.length / 256 % 256, xs.length % 256]) ++ (xs.map g).flatten) ∧
    hashSetEncode f xs s = .ok (s ++ (xs.map g).flatten) ∧
    hashMapEncode fk fv es s =
      .ok (s ++ (es.map (fun e => gk e.1 ++ gv e.2)).flatten) := by
  refine ⟨?_, hashSetEncode_pure f g hf xs s, hashMapEncode_pure fk fv gk gv hfk hfv es s⟩
  rw [sliceEncode, usizeEncode, if_pos h]
  exact encodeItems_pure f g hf xs 0 (u16Encode xs.length s)

theorem c1_growable_encode_witness :
    sliceEncode u8EncodeE [7, 9] [] = Except.ok [0, 2, 7, 9] ∧
    hashSetEncode u8EncodeE [7, 9] [] = Except.ok [7, 9] ∧
    hashMapEncode u8EncodeE u8EncodeE [(1, 2)] [] = Except.ok [1, 2] :=
  c1_growable_encode u8EncodeE (fun v => [v % 256]) u8EncodeE (fun v => [v % 256])
    u8EncodeE (fun v => [v % 256]) (fun _ _ => rfl) (fun _ _ => rfl) (fun _ _ => rfl)
    [7, 9] [(1, 2)] [] (by decide)

/-- C8: for every item-indexed error node with locator `index` and
nested cause `error`, the human-readable rendering contains the
rendered locator and the rendered nested cause, and `source` yields
exactly the immediate nested cause. -/
theorem c8_item_encode_error {I E : Type} (x : ItemEncodeError I E)
    (fi : I → String) (fe : E → String) :
    (∃ p q, x.display fi fe = p ++ fi x.index ++ q) ∧
    (∃ p, x.display fi fe = p ++ fe x.error) ∧
    x.source = some x.error := by
  refine ⟨⟨"could not encode item at \x60", "\x60: " ++ fe x.error, ?_⟩,
    ⟨"could not encode item at \x60" ++ fi x.index ++ "\x60: ", ?_⟩, rfl⟩
  · simp [ItemEncodeError.display, String.append_assoc]
  · simp [ItemEncodeError.display, String.append_assoc]

/-- Modelled from the spec: `EnumDecodeError`, the enum decode error
taxonomy member (its defining file `librum/src/error/enum_decode_error.rs`
is not under `src/`; the shape is taken from its uses in
`decode_enum.rs` and from the spec's taxonomy).  `InvalidDiscriminant`
wraps a failure of the discriminant's own decoding,
`UnassignedDiscriminant` carries a well-formed discriminant value that
matches no assigned variant, and `Field` wraps a failure of a
variant's field. -/
inductive EnumDecodeError (D E F : Type) : Type where
  | InvalidDiscriminant (error : E)
  | UnassignedDiscriminant (value : D)
  | Field (error : F)
  deriving DecidableEq

/-- The dispatch `match` of the generated enum decoder: the arms test
the decoded discriminant against each variant's resolved value in
declaration order, and the fallthrough arm fails with
`UnassignedDiscriminant` carrying the raw value. -/
def decodeEnumDispatch {D E F α : Type} [DecidableEq D] (value : D)
    (arms : List (D × (DStream → Except (EnumDecodeError D E F) (α × DStream))))
    (s : DStream) : Except (EnumDecodeError D E F) (α × DStream) :=
  match arms with
  | [] => .error (.UnassignedDiscriminant value)
  | (d, body) :: rest =>
    if value = d then body s else decodeEnumDispatch value rest s

/-- The generated `decode` of a derived enum (`decode_enum`): decode
one discriminant in the configured representation, converting its
error (`conv` models the `Into` conversion the generated code applies,
`Into<Infallible>` in the source) and wrapping it in
`InvalidDiscriminant`; then dispatch on the value.  `decodeRepr`
stands for `<#repr as Decode>::decode` and each arm's body for the
variant's field decodes followed by construction. -/
def decodeEnum {D E E' F α : Type} [DecidableEq D]
    (decodeRepr : DStream → Except E (D × DStream)) (conv : E → E')
    (arms : List (D × (DStream → Except (EnumDecodeError D E' F) (α × DStream))))
    (s : DStream) : Except (EnumDecodeError D E' F) (α × DStream) :=
  match decodeRepr s with
  | .error e => .error (.InvalidDiscriminant (conv e))
  | .ok (d, s') => decodeEnumDispatch d arms s'

theorem decodeEnumDispatch_unassigned {D E F α : Type} [DecidableEq D] (value : D)
    (arms : List (D × (DStream → Except (EnumDecodeError D E F) (α × DStream))))
    (s : DStream) (h : ∀ a ∈ arms, a.1 ≠ value) :
    decodeEnumDispatch value arms s = .error (.UnassignedDiscriminant value) := by
  induction arms with
  | nil => rfl
  | cons a rest ih =>
    obtain ⟨d, body⟩ := a
    have hd : value ≠ d := fun hv => h (d, body) (by simp) (by simp [hv])
    rw [decodeEnumDispatch, if_neg hd]
    exact ih fun b hb => h b (by simp [hb])

/-- C2: for the generated decoder of every derived enum, a failure of
the discriminant's own decoding surfaces as `InvalidDiscriminant`
wrapping that failure; a successfully decoded discriminant matching no
assigned variant fails with `UnassignedDiscriminant` carrying exactly
that raw value; and the two error shapes are distinct constructors,
never conflated. -/
theorem c2_decode_enum {D E E' F α : Type} [DecidableEq D]
    (decodeRepr : DStream → Except E (D × DStream)) (conv : E → E')
    (arms : List (D × (DStream → Except (EnumDecodeError D E' F) (α × DStream))))
    (s₁ s₂ : DStream) (e : E) (d : D) (t : DStream)
    (h₁ : decodeRepr s₁ = .error e)
    (h₂ : decodeRepr s₂ = .ok (d, t))
    (h₃ : ∀ a ∈ arms, a.1 ≠ d) :
    decodeEnum decodeRepr conv arms s₁ = .error (.InvalidDiscriminant (conv e)) ∧
    decodeEnum decodeRepr conv arms s₂ = .error (.UnassignedDiscriminant d) ∧
    (EnumDecodeError.InvalidDiscriminant (conv e) : EnumDecodeError D E' F) ≠
      EnumDecodeError.UnassignedDiscriminant d := by
  refine ⟨?_, ?_, by simp⟩
  · rw [decodeEnum, h₁]
  · rw [decodeEnum, h₂]
    exact decodeEnumDispatch_unassigned d arms t h₃

theorem c2_decode_enum_witness :
    decodeEnum
      (fun s : DStream => if s.len = 0 then Except.error () else Except.ok (7, s))
      (fun e : Unit => e)
      ([(0, fun s => Except.ok ((), s))] :
        List (Nat × (DStream → Except (EnumDecodeError Nat Unit Unit) (Unit × DStream))))
      (DStream.new []) = Except.error (.InvalidDiscriminant ()) ∧
    decodeEnum
      (fun s : DStream => if s.len = 0 then Except.error () else Except.ok (7, s))
      (fun e : Unit => e)
      ([(0, fun s => Except.ok ((), s))] :
        List (Nat × (DStream → Except (EnumDecodeError Nat Unit Unit) (Unit × DStream))))
      (DStream.new [1]) = Except.error (.UnassignedDiscriminant 7) ∧
    (EnumDecodeError.InvalidDiscriminant () : EnumDecodeError Nat Unit Unit) ≠
      EnumDecodeError.UnassignedDiscriminant 7 :=
  c2_decode_enum
    (fun s : DStream => if s.len = 0 then Except.error () else Except.ok (7, s))
    (fun e : Unit => e)
    ([(0, fun s => Except.ok ((), s))] :
      List (Nat × (DStream → Except (EnumDecodeError Nat Unit Unit) (Unit × DStream))))
    (DStream.new []) (DStream.new [1]) () 7 (DStream.new [1])
    (by simp [DStream.new]) (by simp [DStream.new]) (by simp)

/-- Modelled from the spec: the decode-side error shapes needed by the
round-trip scenario (the `Decode` implementations and their error
types are not under `src/`): end-of-input carries the available and
requested byte counts, and a boolean byte other than `0` or `1` is
invalid. -/
inductive GenericDecodeError : Type where
  | EndOfInput (available : Nat) (requested : Nat)
  | InvalidBool (value : Nat)
  deriving DecidableEq

/-- Modelled from the spec: `<u16 as Decode>::decode` (not under
`src/`): reads two bytes off the read cursor and assembles them
big-endian. -/
def u16Decode (s : DStream) : Except GenericDecodeError (Nat × DStream) :=
  match s.take 2 with
  | (.error (.EndOfDStream a r), _) => .error (.EndOfInput a r)
  | (.ok bs, s') => .ok (bs.getD 0 0 * 256 + bs.getD 1 0, s')

/-- Modelled from the spec: `<bool as Decode>::decode` (not under
`src/`): reads one byte; `0` is `false`, `1` is `true`, anything else
is invalid. -/
def boolDecode (s : DStream) : Except GenericDecodeError (Bool × DStream) :=
  match s.take 1 with
  | (.error (.EndOfDStream a r), _) => .error (.EndOfInput a r)
  | (.ok bs, s') =>
    match bs.getD 0 0 with
    | 0 => .ok (false, s')
    | 1 => .ok (true, s')
    | v => .error (.InvalidBool v)

/-- The struct `{a: u16, b: bool}` of the concrete scenario. -/
structure FooStruct where
  a : Nat
  b : Bool
  deriving DecidableEq

/-- The derived `encode` of `FooStruct`: each field encoded
sequentially in declaration order (`a`, then `b`), per the struct
derivation rule and the `impl_tuple!` scheme. -/
def fooEncode (x : FooStruct) (s : OStream) : OStream :=
  boolEncode x.b (u16Encode x.a s)

/-- Modelled from the spec: the derived `decode` of `FooStruct` (the
struct decode generator is not under `src/`): each field decoded
sequentially in declaration order, reassembling the structure only if
every field succeeds. -/
def fooDecode (s : DStream) : Except GenericDecodeError (FooStruct × DStream) :=
  match u16Decode s with
  | .error e => .error e
  | .ok (a, s') =>
    match boolDecode s' with
    | .error e => .error e
    | .ok (b, s'') => .ok (⟨a, b⟩, s'')

/-- C5: encoding the struct `{a: u16, b: bool}` with `a = 300` and
`b = true` produces exactly the three bytes `01 2C 01` (that is
`[1, 44, 1]`), and decoding those three bytes reproduces
`{300, true}`, consuming the whole buffer. -/
theorem c5_struct_roundtrip :
    fooEncode ⟨300, true⟩ [] = [1, 44, 1] ∧
    fooDecode (DStream.new [1, 44, 1]) =
      Except.ok (⟨300, true⟩, DStream.mk [1, 44, 1] 0) := by
  constructor
  · rfl
  · rfl

/-- `Repr`: a derivable enumeration representation, one of the twelve
primitive integer kinds. -/
inductive Repr : Type where
  | U8
  | I8
  | U16
  | I16
  | U32
  | I32
  | U64
  | I64
  | U128
  | I128
  | Usize
  | Isize
  deriving DecidableEq

/-- `impl Default for Repr`: the default representation is `isize`,
the signed architecture-width kind. -/
def Repr.default : Repr := Repr.Isize

/-- A nested meta item of a `repr` attribute, as inspected by
`Repr::get`: one of the twelve recognised primitive idents, or any
other ident (on which the source aborts generation). -/
inductive ReprMeta : Type where
  | u8
  | i8
  | u16
  | i16
  | u32
  | i32
  | u64
  | i64
  | u128
  | i128
  | usize
  | isize
  | unknown
  deriving DecidableEq

/-- A derive-input attribute as far as `Repr::get` can distinguish
them: a `repr(...)` attribute holding nested meta idents, or any other
attribute (which the source ignores). -/
inductive Attr : Type where
  | reprAttr (metas : List ReprMeta)
  | otherAttr
  deriving DecidableEq

/-- One step of `Repr::get`'s nested-meta closure: a recognised ident
selects its representation; an unrecognised ident aborts generation
(modelled as `Except.error`). -/
def Repr.parseMeta : ReprMeta → Except Unit Repr
  | .u8 => .ok .U8
  | .i8 => .ok .I8
  | .u16 => .ok .U16
  | .i16 => .ok .I16
  | .u32 => .ok .U32
  | .i32 => .ok .I32
  | .u64 => .ok .U64
  | .i64 => .ok .I64
  | .u128 => .ok .U128
  | .i128 => .ok .I128
  | .usize => .ok .Usize
  | .isize => .ok .Isize
  | .unknown => .error ()

/-- `parse_nested_meta` over one `repr` attribute: each recognised
ident overwrites the current selection. -/
def Repr.parseMetas : Option Repr → List ReprMeta → Except Unit (Option Repr)
  | this, [] => .ok this
  | _, m :: ms =>
    match Repr.parseMeta m with
    | .error e => .error e
    | .ok r => Repr.parseMetas (some r) ms

/-- The attribute loop of `Repr::get`, threading the current
selection. -/
def Repr.getFrom : Option Repr → List Attr → Except Unit (Option Repr)
  | this, [] => .ok this
  | this, .reprAttr ms :: rest =>
    match Repr.parseMetas this ms with
    | .error e => .error e
    | .ok this' => Repr.getFrom this' rest
  | this, .otherAttr :: rest => Repr.getFrom this rest

/-- `Repr::get`: scans the attribute list for `repr` attributes and
returns the selected representation, or `none` when no `repr`
attribute names one. -/
def Repr.get (attrs : List Attr) : Except Unit (Option Repr) :=
  Repr.getFrom none attrs

/-- Modelled from the spec: the derive entry point (not under `src/`)
applies `Repr::get` to the input's attributes and falls back to the
default representation when none is selected. -/
def reprForEnum (attrs : List Attr) : Except Unit Repr :=
  match Repr.get attrs with
  | .error e => .error e
  | .ok this => .ok (this.getD Repr.default)

theorem getFrom_no_repr (this : Option Repr) :
    ∀ attrs : List Attr, (∀ a ∈ attrs, a = Attr.otherAttr) →
      Repr.getFrom this attrs = .ok this := by
  intro attrs
  induction attrs with
  | nil => intro _; rfl
  | cons a rest ih =>
    intro h
    have ha : a = Attr.otherAttr := h a (by simp)
    subst ha
    exact ih fun b hb => h b (by simp [hb])

/-- C7: for every derived enum whose attribute list contains no `repr`
selection, `Repr::get` finds nothing and the generator falls back to
the default representation, which is `Isize` — the signed,
pointer-sized-equivalent integer kind. -/
theorem c7_default_repr (attrs : List Attr)
    (h : ∀ a ∈ attrs, a = Attr.otherAttr) :
    Repr.get attrs = .ok none ∧
    reprForEnum attrs = .ok Repr.Isize ∧
    Repr.default = Repr.Isize := by
  have hg : Repr.get attrs = .ok none := getFrom_no_repr none attrs h
  exact ⟨hg, by simp [reprForEnum, hg, Repr.default, Option.getD], rfl⟩

theorem c7_default_repr_witness :
    Repr.get [Attr.otherAttr] = .ok none ∧
    reprForEnum [Attr.otherAttr] = .ok Repr.Isize ∧
    Repr.default = Repr.Isize :=
  c7_default_repr [Attr.otherAttr] (by decide)

/-- `CStr`: a C string slice.  Its byte representation ends in the
null terminator, contains no interior null, and consists of bytes. -/
structure CStr where
  bytes : List Nat
  nonempty : bytes ≠ []
  terminated : bytes.getLast? = some 0
  no_interior_null : ∀ b ∈ bytes.dropLast, b ≠ 0
  byte_bounded : ∀ b ∈ bytes, b ≤ 255

/-- `CStr::to_bytes`: the content bytes without the null
terminator. -/
def CStr.to_bytes (c : CStr) : List Nat := c.bytes.dropLast

/-- `<CStr as Encode>::encode`: encodes `to_bytes` identically to a
byte slice.  `CString` delegates to the same scheme via
`as_c_str`. -/
def cstrEncode (c : CStr) (s : OStream) :
    Except (CollectionEncodeError UsizeEncodeError (ItemEncodeError Nat Infallible)) OStream :=
  sliceEncode u8EncodeE c.to_bytes s

theorem flatten_map_byte (xs : List Nat) (hb : ∀ b ∈ xs, b ≤ 255) :
    (xs.map fun b => [b % 256]).flatten = xs := by
  induction xs with
  | nil => rfl
  | cons x xs ih =>
    have hx : x % 256 = x := Nat.mod_eq_of_lt (by have := hb x (by simp); omega)
    simp only [List.map_cons, List.flatten_cons, List.singleton_append, hx]
    rw [ih fun b hbmem => hb b (by simp [hbmem])]

/-- C10: for every C string value, `encode` produces exactly the byte
slice encoding of the content bytes excluding the null terminator: a
two-byte big-endian length prefix equal to the content length without
the terminator, then those content bytes.  The terminator is excluded
(`to_bytes` drops the final byte) and the byte `0` never appears among
the written content bytes. -/
theorem c10_cstr_encode (c : CStr) (s : OStream)
    (h : c.to_bytes.length ≤ 65535) :
    cstrEncode c s =
      .ok ((s ++ [c.to_bytes.length / 256 % 256, c.to_bytes.length % 256]) ++
        c.to_bytes) ∧
    c.to_bytes = c.bytes.dropLast ∧
    c.to_bytes.length = c.bytes.length - 1 ∧
    0 ∉ c.to_bytes := by
  have hbound : ∀ b ∈ c.to_bytes, b ≤ 255 := fun b hb =>
    c.byte_bounded b (List.dropLast_subset c.bytes hb)
  refine ⟨?_, rfl, by simp [CStr.to_bytes], ?_⟩
  · rw [cstrEncode, sliceEncode, usizeEncode, if_pos h]
    show encodeItems u8EncodeE 0 c.to_bytes (u16Encode c.to_bytes.length s) = _
    rw [encodeItems_pure u8EncodeE (fun b => [b % 256]) (fun _ _ => rfl)]
    rw [flatten_map_byte c.to_bytes hbound]
    rfl
  · intro hmem
    exact c.no_interior_null 0 hmem rfl

theorem c10_cstr_encode_witness :
    cstrEncode ⟨[104, 105, 0], by decide, by decide, by decide, by decide⟩ [] =
      Except.ok [0, 2, 104, 105] ∧
    (CStr.mk [104, 105, 0] (by decide) (by decide) (by decide) (by decide)).to_bytes =
      ([104, 105, 0] : List Nat).dropLast ∧
    (CStr.mk [104, 105, 0] (by decide) (by decide) (by decide) (by decide)).to_bytes.length =
      ([104, 105, 0] : List Nat).length - 1 ∧
    0 ∉ (CStr.mk [104, 105, 0] (by decide) (by decide) (by decide) (by decide)).to_bytes := by
  exact c10_cstr_encode
    (CStr.mk [104, 105, 0] (by decide) (by decide) (by decide) (by decide)) [] (by decide)

end Librum
